import Mathlib

/-!
Verification of the NeuroVoice analysis core (`app.py`, `train_model.py`).

The pipeline is embedded shallowly over `ℚ`:
- pure Python arithmetic (the validator, the classifier adapter, the
  jitter/shimmer/default logic of the extractor) is translated directly
  from the source;
- the external DSP collaborators (`librosa`, and the irrational parts of
  `numpy` such as square roots and logarithms) are modelled as an explicit
  `Dsp` structure of total functions; theorems that depend on their
  behaviour take the documented librosa contracts as hypotheses;
- the trained scikit-learn artifact (model, scaler) is likewise modelled
  as a structure of opaque total functions with its documented contract
  (class probabilities form a distribution) taken as a hypothesis;
- Python exceptions become `Except PipelineError`.
-/

namespace NeuroVoice

/-- Error taxonomy of the analysis path.  `emptyAudio` models the
`ValueError("Audio file is empty")` raised in `extract_features`;
`modelUnavailable` models the `ValueError("Model not loaded...")` raised in
`predict_parkinsons`; `featureSchema` models the `KeyError` raised by
`pd.DataFrame(...)[feature_columns]` when an expected column is missing;
`statsKey` models the `KeyError` raised in `validate_features` when a
feature is present in `feature_stats['mins']` but not in
`feature_stats['maxs']`. -/
inductive PipelineError where
  | emptyAudio
  | modelUnavailable
  | featureSchema
  | statsKey
deriving DecidableEq, Repr

/-- A feature vector: the Python dict mapping feature names to floats,
in insertion order (Python dicts preserve insertion order). -/
abbrev FeatureVector := List (String × ℚ)

/-- The per-feature statistics table persisted by `train_model.py`
(`feature_stats['mins']` / `feature_stats['maxs']`; the `means`/`stds`
entries also present in the artifact are never read by `app.py` and are
omitted). -/
structure FeatureStats where
  mins : List (String × ℚ)
  maxs : List (String × ℚ)

/-- The fitted scikit-learn `StandardScaler`, modelled by its `transform`
method as an opaque total function on feature rows. -/
structure Scaler where
  transform : List ℚ → List ℚ

/-- The trained `RandomForestClassifier`, modelled by its three methods
used in `app.py`.  `predict` returns one of the two class labels;
`predict_proba` returns the `(probability_healthy, probability_parkinsons)`
pair; `feature_importances` is the global importance array, one entry per
feature column. -/
structure Model where
  predict : List ℚ → Fin 2
  predict_proba : List ℚ → ℚ × ℚ
  feature_importances : List ℚ

/-- The module-level state of `app.py`: `model`, `scaler`,
`feature_columns`, `feature_stats`.  `model`/`scaler` are `none` when
`parkinsons_model.pkl` is absent.  `feature_stats` is `none` when the
stats dict is empty or lacks the `mins`/`maxs` keys (the guard
`feature_stats and 'mins' in feature_stats and 'maxs' in feature_stats`). -/
structure AppGlobals where
  model : Option Model
  scaler : Option Scaler
  feature_columns : List String
  feature_stats : Option FeatureStats

/-- The ten feature columns, from `app.py` line 36 and
`train_model.py` lines 68-70. -/
def feature_columns : List String :=
  ["jitter", "shimmer", "hnr", "mfcc_mean", "mfcc_std",
   "pitch_mean", "pitch_std", "energy_mean",
   "spectral_centroid", "zero_crossing_rate"]

/-- Models `numpy.clip(x, lo, hi)`: the lower bound is applied first, then
the upper bound, so when `lo > hi` the result is `hi` for every input. -/
def npClip (x lo hi : ℚ) : ℚ := min (max x lo) hi

/-- The per-feature body of the loop in `validate_features`
(`app.py` lines 121-125): `min_val = mins[feat] * 0.5`,
`max_val = maxs[feat] * 1.5`; clip only when the value falls outside
`[min_val, max_val]`. -/
def validate_one (v mn mx : ℚ) : ℚ :=
  let min_val := mn * 0.5
  let max_val := mx * 1.5
  if v < min_val ∨ v > max_val then npClip v min_val max_val else v

/-- The loop of `validate_features`: each feature present in
`feature_stats['mins']` is validated against its stats; a feature present
in `mins` but missing from `maxs` raises `KeyError` (`statsKey`). -/
def validateLoop (mins maxs : List (String × ℚ)) :
    FeatureVector → Except PipelineError FeatureVector
  | [] => .ok []
  | (nm, v) :: rest =>
    match mins.lookup nm with
    | none =>
      match validateLoop mins maxs rest with
      | .error e => .error e
      | .ok tail => .ok ((nm, v) :: tail)
    | some mn =>
      match maxs.lookup nm with
      | none => .error .statsKey
      | some mx =>
        match validateLoop mins maxs rest with
        | .error e => .error e
        | .ok tail => .ok ((nm, validate_one v mn mx) :: tail)

/-- `validate_features(features, feature_stats)` from `app.py` lines
116-126.  When the stats table is absent/empty (`none`) the vector passes
through unchanged. -/
def validate_features (features : FeatureVector) (stats : Option FeatureStats) :
    Except PipelineError FeatureVector :=
  match stats with
  | none => .ok features
  | some st => validateLoop st.mins st.maxs features

/-- Models `pd.DataFrame([validated])[feature_columns].values[0]`: project
the validated dict onto the expected columns, in column order, raising
(`featureSchema`, the spec's `FeatureSchemaError`) when a column is
missing from the dict. -/
def projectRow (validated : FeatureVector) :
    List String → Except PipelineError (List ℚ)
  | [] => .ok []
  | c :: cs =>
    match validated.lookup c with
    | none => .error .featureSchema
    | some v =>
      match projectRow validated cs with
      | .error e => .error e
      | .ok rest => .ok (v :: rest)

/-- Models Python `zip(feature_columns, feature_importance, feature_values)`
(truncates to the shortest argument, as `zip` does). -/
def zip3 (as : List String) (bs cs : List ℚ) : List (String × ℚ × ℚ) :=
  as.zip (bs.zip cs)

/-- Stable insertion used to model Python's stable sort: `x` is placed in
front of the first element whose key does not exceed `x`'s key. -/
def insertByKey {α : Type} (key : α → ℚ) (x : α) : List α → List α
  | [] => [x]
  | y :: ys => if key y ≤ key x then x :: y :: ys else y :: insertByKey key x ys

/-- Models Python `sorted(l, key=..., reverse=True)`: a stable sort, by
key descending.  In `x :: xs` the element `x` is original-first, and
`insertByKey` places it before every equal-key element of the sorted
tail, so the original order of equal-key elements is preserved. -/
def sortByKeyDesc {α : Type} (key : α → ℚ) : List α → List α
  | [] => []
  | x :: xs => insertByKey key x (sortByKeyDesc key xs)

/-- One entry of the `top_features` list: the `(name, importance, value)`
triple from which `predict_parkinsons` builds each
`{'name': ..., 'importance': ..., 'value': ...}` dict. -/
abbrev TopFeature := String × ℚ × ℚ

/-- The response record built by `predict_parkinsons`
(`app.py` lines 142-156). -/
structure PredictionResult where
  prediction : ℕ
  confidence : ℚ
  probability_healthy : ℚ
  probability_parkinsons : ℚ
  top_features : List TopFeature
  needs_review : Bool
deriving DecidableEq, Repr

/-- `predict_parkinsons(features)` from `app.py` lines 128-156, as a
function of the module-level globals `g`. -/
def predict_parkinsons (g : AppGlobals) (features : FeatureVector) :
    Except PipelineError PredictionResult :=
  match g.model, g.scaler with
  | some model, some scaler =>
    match validate_features features g.feature_stats with
    | .error e => .error e
    | .ok validated =>
      match projectRow validated g.feature_columns with
      | .error e => .error e
      | .ok feature_values =>
        let feature_scaled := scaler.transform feature_values
        let prediction := model.predict feature_scaled
        let probability := model.predict_proba feature_scaled
        let confidence := if prediction = 0 then probability.1 else probability.2
        let top_features :=
          (sortByKeyDesc (fun e => e.2.1)
            (zip3 g.feature_columns model.feature_importances feature_values)).take 5
        .ok
          { prediction := prediction.val
            confidence := confidence
            probability_healthy := probability.1
            probability_parkinsons := probability.2
            top_features := top_features
            needs_review := decide (confidence < 0.6) }
  | _, _ => .error .modelUnavailable

/-- Mean of a list, `numpy.mean` (the `numpy` NaN on an empty array is
not modelled; no claim evaluates a mean of an empty list). -/
def mean (l : List ℚ) : ℚ := l.sum / (l.length : ℚ)

/-- Absolute first differences, `numpy.abs(numpy.diff(l))`. -/
def absDiffs (l : List ℚ) : List ℚ :=
  (l.zip l.tail).map fun p => |p.2 - p.1|

/-- Index of the first maximal element, `numpy.argmax` (0 on the empty
list, where `numpy` would raise; no claim evaluates it there). -/
def argmaxIdx (l : List ℚ) : ℕ :=
  (l.foldl
    (fun acc x =>
      if acc.2.1 < x then (acc.2.2, x, acc.2.2 + 1)
      else (acc.1, acc.2.1, acc.2.2 + 1))
    (0, l.headD 0, 0)).1

/-- The external DSP collaborators of `extract_features`: the `librosa`
calls, plus the irrational `numpy` primitives (square root for `np.std`,
base-10 logarithm for the HNR).  Each is an opaque total function; the
documented librosa behaviours a theorem needs are taken as hypotheses on
this structure. -/
structure Dsp where
  normalize : List ℚ → List ℚ
  trim : List ℚ → List ℚ
  piptrack : List ℚ → ℕ → ℕ → List (List ℚ × List ℚ)
  rms : List ℚ → ℕ → ℕ → List ℚ
  hpss : List ℚ → List ℚ × List ℚ
  mfcc : List ℚ → ℕ → ℕ → List (List ℚ)
  spectral_centroid : List ℚ → ℕ → ℕ → List ℚ
  zcr : List ℚ → ℕ → ℕ → List ℚ
  sqrt : ℚ → ℚ
  log10 : ℚ → ℚ

/-- `numpy.std`, via the modelled square root. -/
def npStd (d : Dsp) (l : List ℚ) : ℚ :=
  d.sqrt (mean (l.map fun x => (x - mean l) ^ 2))

/-- The pitch-selection loop of `extract_features` (`app.py` lines 62-67):
for each analysis frame, take the pitch at the magnitude-argmax bin and
keep it only when strictly positive.  Each frame is a
`(pitch column, magnitude column)` pair of the `piptrack` output. -/
def selectPitches (cols : List (List ℚ × List ℚ)) : List ℚ :=
  cols.filterMap fun c =>
    let p := c.1.getD (argmaxIdx c.2) 0
    if 0 < p then some p else none

/-- The floating-point guard `1e-10` used throughout `extract_features`. -/
def eps : ℚ := 1 / 10000000000

/-- `extract_features` from `app.py` lines 50-114, on an already decoded
sample sequence `y` at sample rate `sr` (the `librosa.load` decoding step
is the boundary of the embedding).  Raises `emptyAudio` on a zero-length
sequence before any feature computation. -/
def extract_features (d : Dsp) (y : List ℚ) (sr : ℕ) :
    Except PipelineError FeatureVector :=
  if y.length = 0 then .error .emptyAudio
  else
    let yn := d.normalize y
    let yt0 := d.trim yn
    let y_trimmed := if (yt0.length : ℚ) < (sr : ℚ) * 0.5 then yn else yt0
    let frame_length := min 2048 y_trimmed.length
    let hop_length := frame_length / 4
    let pitch_values := selectPitches (d.piptrack y_trimmed sr hop_length)
    let pitch_mean := if pitch_values.length > 0 then mean pitch_values else 150
    let pitch_std := if pitch_values.length > 0 then npStd d pitch_values else 40
    let jitter :=
      if pitch_values.length > 0 then
        let pitch_periods := pitch_values.map fun p => 1 / (p + eps)
        if pitch_periods.length > 1 then
          if mean pitch_periods > 0 then
            mean (absDiffs pitch_periods) / mean pitch_periods
          else 0.005
        else 0.005
      else 0.005
    let rms := d.rms y_trimmed frame_length hop_length
    let shimmer :=
      if rms.length > 1 then mean (absDiffs rms) / (mean rms + eps) else 0.02
    let hp := d.hpss y_trimmed
    let harmonic_energy := (hp.1.map fun x => x ^ 2).sum
    let noise_energy := (hp.2.map fun x => x ^ 2).sum
    let hnr := 10 * d.log10 ((harmonic_energy + eps) / (noise_energy + eps))
    let mfccs := (d.mfcc y_trimmed sr hop_length).flatten
    let mfcc_mean := mean mfccs
    let mfcc_std := npStd d mfccs
    let energy_mean := mean rms
    let spectral_centroid := mean (d.spectral_centroid y_trimmed sr hop_length)
    let zero_crossing_rate := mean (d.zcr y_trimmed frame_length hop_length)
    .ok
      [("jitter", jitter), ("shimmer", shimmer), ("hnr", hnr),
       ("mfcc_mean", mfcc_mean), ("mfcc_std", mfcc_std),
       ("pitch_mean", pitch_mean), ("pitch_std", pitch_std),
       ("energy_mean", energy_mean), ("spectral_centroid", spectral_centroid),
       ("zero_crossing_rate", zero_crossing_rate)]

/-- The analysis chain of the `/analyze` endpoint
(`app.py` lines 261-262): extract, then classify; the response carries
both the feature vector and the prediction record. -/
def analyzePipeline (g : AppGlobals) (d : Dsp) (y : List ℚ) (sr : ℕ) :
    Except PipelineError (FeatureVector × PredictionResult) :=
  match extract_features d y sr with
  | .error e => .error e
  | .ok features =>
    match predict_parkinsons g features with
    | .error e => .error e
    | .ok r => .ok (features, r)

/-- Modelled from the spec: the "nearest bound" of the acceptable range
`[lo, hi]` for an out-of-range value `v` — the bound at minimal distance
from `v`.  Used to compare the validator's clipping against the spec's
wording. -/
def nearestBound (v lo hi : ℚ) : ℚ :=
  if |v - lo| ≤ |v - hi| then lo else hi

/-- App state with no model artifact loaded (`parkinsons_model.pkl`
absent: `model = None`, `scaler = None`, empty columns and stats). -/
def gUnloaded : AppGlobals :=
  { model := none, scaler := none, feature_columns := [], feature_stats := none }

/-- A trivial DSP instance, used only to instantiate theorems whose
conclusions do not depend on the DSP output. -/
def dspTriv : Dsp :=
  { normalize := id
    trim := id
    piptrack := fun _ _ _ => []
    rms := fun _ _ _ => []
    hpss := fun _ => ([], [])
    mfcc := fun _ _ _ => []
    spectral_centroid := fun _ _ _ => []
    zcr := fun _ _ _ => []
    sqrt := fun _ => 0
    log10 := fun _ => 0 }

/-- An all-zero (silence) input: 8 zero samples. -/
def ySilence : List ℚ := List.replicate 8 0

/-- A DSP instance consistent with `librosa` on the all-zero input
`ySilence` at sample rate 4: trimming removes the whole silent signal
(so the untrimmed signal is used), `piptrack` magnitudes and pitches are
all zero, the 5 RMS frames (one per hop of 2 samples, centred) are all
zero, harmonic/percussive parts of silence are silent, the
spectral-centroid and zero-crossing frames are zero, and
`log10 ((0+eps)/(0+eps)) = log10 1 = 0`.  The MFCC output only feeds
`mfcc_mean`/`mfcc_std`, which no silence claim constrains. -/
def dspSilence : Dsp :=
  { normalize := id
    trim := fun _ => []
    piptrack := fun _ _ _ => List.replicate 5 ([0], [0])
    rms := fun _ _ _ => List.replicate 5 0
    hpss := fun z => (z.map fun _ => 0, z.map fun _ => 0)
    mfcc := fun _ _ _ => [[0]]
    spectral_centroid := fun _ _ _ => List.replicate 5 0
    zcr := fun _ _ _ => List.replicate 5 0
    sqrt := fun _ => 0
    log10 := fun _ => 0 }

/-- A feature vector assigning value `i+1` to the `i`-th feature column. -/
def fTen : FeatureVector :=
  [("jitter", 1), ("shimmer", 2), ("hnr", 3), ("mfcc_mean", 4),
   ("mfcc_std", 5), ("pitch_mean", 6), ("pitch_std", 7), ("energy_mean", 8),
   ("spectral_centroid", 9), ("zero_crossing_rate", 10)]

/-- A concrete model used to instantiate the classifier-adapter theorems:
constant healthy prediction with probabilities `(7/10, 3/10)`, and
importance weights `[0,1,0,1,0,1,0,1,0,1]` (so that the descending stable
sort has ties to break). -/
def mTen : Model :=
  { predict := fun _ => 0
    predict_proba := fun _ => (7/10, 3/10)
    feature_importances := [0, 1, 0, 1, 0, 1, 0, 1, 0, 1] }

/-- An identity scaler for witness instantiations. -/
def sId : Scaler := { transform := id }

/-- App state with `mTen`/`sId` loaded, the ten feature columns, and no
statistics table. -/
def gTen : AppGlobals :=
  { model := some mTen, scaler := some sId,
    feature_columns := feature_columns, feature_stats := none }

/-- The prediction record `predict_parkinsons gTen fTen` produces: the
five importance-1 features, in original column order, each with its
observed value. -/
def rTen : PredictionResult :=
  { prediction := 0
    confidence := 7/10
    probability_healthy := 7/10
    probability_parkinsons := 3/10
    top_features :=
      [("shimmer", 1, 2), ("mfcc_mean", 1, 4), ("pitch_mean", 1, 6),
       ("energy_mean", 1, 8), ("zero_crossing_rate", 1, 10)]
    needs_review := false }

/-- A statistics table whose `jitter` range is non-degenerate upside
down: `min = 10`, `max = 1`, so the acceptable range arguments are
`lo = 5 > hi = 1.5`. -/
def stInverted : FeatureStats :=
  { mins := [("jitter", 10)], maxs := [("jitter", 1)] }

/-- A statistics table with both `mfcc_mean` bounds negative
(`min = -4`, `max = -1`), giving the non-empty acceptable range
`[-2, -1.5]`. -/
def stNegative : FeatureStats :=
  { mins := [("mfcc_mean", -4)], maxs := [("mfcc_mean", -1)] }

/-- A statistics table with an ordinary `jitter` range: `min = 2`,
`max = 4`, acceptable range `[1, 6]`. -/
def stProper : FeatureStats :=
  { mins := [("jitter", 2)], maxs := [("jitter", 4)] }

/-- A statistics table whose computed `hnr` bounds are inverted:
`min = -1`, `max = -1` gives range arguments `lo = -0.5 > hi = -1.5`. -/
def stCollapsed : FeatureStats :=
  { mins := [("hnr", -1)], maxs := [("hnr", -1)] }

/-! ### Helper lemmas -/

/-- What `validate_features` does to each feature, expressed through
lookups: a feature missing from the `mins` table passes through; a
feature present in both tables is mapped through `validate_one`. -/
theorem validateLoop_ok_lookup (mins maxs : List (String × ℚ))
    (fs out : FeatureVector) (h : validateLoop mins maxs fs = .ok out)
    (nm : String) (v : ℚ) (hv : fs.lookup nm = some v) :
    (mins.lookup nm = none ∧ out.lookup nm = some v) ∨
    ∃ mn mx, mins.lookup nm = some mn ∧ maxs.lookup nm = some mx ∧
      out.lookup nm = some (validate_one v mn mx) := by
  induction fs generalizing out with
  | nil => simp at hv
  | cons hd rest ih =>
    obtain ⟨nm', v'⟩ := hd
    rw [validateLoop] at h
    by_cases hnm : nm = nm'
    · subst hnm
      have hvv : v' = v := by simpa [List.lookup_cons] using hv
      cases hm : mins.lookup nm with
      | none =>
        rw [hm] at h
        cases hrec : validateLoop mins maxs rest with
        | error e => rw [hrec] at h; cases h
        | ok tail =>
          rw [hrec] at h
          obtain rfl : (nm, v') :: tail = out := by simpa using h
          left
          exact ⟨rfl, by simp [List.lookup_cons, hvv]⟩
      | some mn =>
        rw [hm] at h
        cases hmx : maxs.lookup nm with
        | none => rw [hmx] at h; cases h
        | some mx =>
          rw [hmx] at h
          cases hrec : validateLoop mins maxs rest with
          | error e => rw [hrec] at h; cases h
          | ok tail =>
            rw [hrec] at h
            obtain rfl : (nm, validate_one v' mn mx) :: tail = out := by simpa using h
            right
            exact ⟨mn, mx, rfl, rfl, by simp [List.lookup_cons, hvv]⟩
    · have hbeq : (nm == nm') = false := beq_eq_false_iff_ne.mpr hnm
      have hv' : rest.lookup nm = some v := by
        simpa [List.lookup_cons, hbeq] using hv
      cases hm : mins.lookup nm' with
      | none =>
        rw [hm] at h
        cases hrec : validateLoop mins maxs rest with
        | error e => rw [hrec] at h; cases h
        | ok tail =>
          rw [hrec] at h
          obtain rfl : (nm', v') :: tail = out := by simpa using h
          have := ih tail hrec hv'
          simpa [List.lookup_cons, hbeq] using this
      | some mn =>
        rw [hm] at h
        cases hmx : maxs.lookup nm' with
        | none => rw [hmx] at h; cases h
        | some mx =>
          rw [hmx] at h
          cases hrec : validateLoop mins maxs rest with
          | error e => rw [hrec] at h; cases h
          | ok tail =>
            rw [hrec] at h
            obtain rfl : (nm', validate_one v' mn mx) :: tail = out := by simpa using h
            have := ih tail hrec hv'
            simpa [List.lookup_cons, hbeq] using this

/-- `getD` of an all-zero list is zero at every index. -/
theorem getD_zero_of_all_zero :
    ∀ (l : List ℚ) (i : ℕ), (∀ p ∈ l, p = 0) → l.getD i 0 = 0
  | [], i, _ => by simp
  | x :: t, 0, h => by simpa using h x (by simp)
  | x :: t, i + 1, h => by
    simpa using getD_zero_of_all_zero t i fun p hp => h p (by simp [hp])

/-- When every `piptrack` pitch entry is zero, the pitch-selection loop
keeps nothing. -/
theorem selectPitches_eq_nil (cols : List (List ℚ × List ℚ))
    (h : ∀ c ∈ cols, ∀ p ∈ c.1, p = 0) : selectPitches cols = [] := by
  unfold selectPitches
  rw [List.filterMap_eq_nil_iff]
  intro c hc
  rw [getD_zero_of_all_zero c.1 (argmaxIdx c.2) (h c hc)]
  simp

/-- The mean of an all-zero list is zero. -/
theorem mean_of_all_zero (l : List ℚ) (h : ∀ x ∈ l, x = 0) : mean l = 0 := by
  unfold mean
  rw [List.sum_eq_zero h, zero_div]

/-- Absolute differences of an all-zero list are all zero. -/
theorem absDiffs_all_zero (l : List ℚ) (h : ∀ x ∈ l, x = 0) :
    ∀ x ∈ absDiffs l, x = 0 := by
  intro x hx
  unfold absDiffs at hx
  obtain ⟨⟨a, b⟩, hab, rfl⟩ := List.mem_map.mp hx
  obtain ⟨ha, hb⟩ := List.of_mem_zip hab
  have hb' : b ∈ l := by
    cases l with
    | nil => simp at hb
    | cons z t => exact List.mem_cons_of_mem z hb
  rw [h a ha, h b hb']
  simp

/-- Membership in a stable insertion. -/
theorem mem_insertByKey {α : Type} (key : α → ℚ) (a x : α) :
    ∀ t : List α, x ∈ insertByKey key a t ↔ x = a ∨ x ∈ t
  | [] => by simp [insertByKey]
  | y :: ys => by
    unfold insertByKey
    split
    · simp [or_comm, or_assoc]
    · simp only [List.mem_cons, mem_insertByKey key a x ys]
      tauto

/-- Membership is preserved by the stable sort. -/
theorem mem_sortByKeyDesc {α : Type} (key : α → ℚ) (x : α) :
    ∀ l : List α, x ∈ sortByKeyDesc key l ↔ x ∈ l
  | [] => by simp [sortByKeyDesc]
  | a :: t => by
    unfold sortByKeyDesc
    rw [mem_insertByKey, mem_sortByKeyDesc key x t]
    simp

/-- Length is preserved by the stable insertion. -/
theorem length_insertByKey {α : Type} (key : α → ℚ) (a : α) :
    ∀ t : List α, (insertByKey key a t).length = t.length + 1
  | [] => rfl
  | y :: ys => by
    unfold insertByKey
    split
    · rfl
    · simp [length_insertByKey key a ys]

/-- Length is preserved by the stable sort. -/
theorem length_sortByKeyDesc {α : Type} (key : α → ℚ) :
    ∀ l : List α, (sortByKeyDesc key l).length = l.length
  | [] => rfl
  | a :: t => by
    unfold sortByKeyDesc
    rw [length_insertByKey, length_sortByKeyDesc key t]
    rfl

/-- The stable insertion preserves descending sortedness. -/
theorem pairwise_insertByKey {α : Type} (key : α → ℚ) (a : α) :
    ∀ t : List α, t.Pairwise (fun x y => key y ≤ key x) →
      (insertByKey key a t).Pairwise (fun x y => key y ≤ key x)
  | [], _ => by simp [insertByKey]
  | y :: ys, h => by
    unfold insertByKey
    rcases List.pairwise_cons.mp h with ⟨hy, hys⟩
    split
    · rename_i hle
      exact List.pairwise_cons.mpr
        ⟨fun z hz => by
          rcases List.mem_cons.mp hz with rfl | hz'
          · exact hle
          · exact le_trans (hy z hz') hle,
        h⟩
    · rename_i hgt
      push_neg at hgt
      refine List.pairwise_cons.mpr ⟨?_, pairwise_insertByKey key a ys hys⟩
      intro z hz
      rcases (mem_insertByKey key a z ys).mp hz with rfl | hz'
      · exact hgt.le
      · exact hy z hz'

/-- The stable sort sorts descending by key. -/
theorem pairwise_sortByKeyDesc {α : Type} (key : α → ℚ) :
    ∀ l : List α, (sortByKeyDesc key l).Pairwise (fun x y => key y ≤ key x)
  | [] => by simp [sortByKeyDesc]
  | a :: t => pairwise_insertByKey key a _ (pairwise_sortByKeyDesc key t)

/-- Within one key class, the stable insertion prepends the new element
exactly when it carries that key: the elements the insertion walks past
have strictly greater keys. -/
theorem filter_insertByKey {α : Type} (key : α → ℚ) (a : α) (k : ℚ) :
    ∀ t : List α,
      (insertByKey key a t).filter (fun e => decide (key e = k)) =
        if key a = k then a :: t.filter (fun e => decide (key e = k))
        else t.filter (fun e => decide (key e = k))
  | [] => by
    unfold insertByKey
    by_cases hk : key a = k <;> simp [List.filter, hk]
  | y :: ys => by
    unfold insertByKey
    split
    · by_cases hk : key a = k <;> simp [List.filter_cons, hk]
    · rename_i hgt
      push_neg at hgt
      rw [List.filter_cons, List.filter_cons, filter_insertByKey key a k ys]
      by_cases hk : key a = k
      · have hyk : ¬ (key y = k) := by
          intro hyy
          rw [← hk] at hyy
          exact (ne_of_gt hgt) hyy
        simp [hk, hyk]
      · simp [hk]

/-- Stability of the sort, per key class: the sorted list restricted to
any single key value equals the input so restricted. -/
theorem filter_sortByKeyDesc {α : Type} (key : α → ℚ) (k : ℚ) :
    ∀ l : List α,
      (sortByKeyDesc key l).filter (fun e => decide (key e = k)) =
        l.filter (fun e => decide (key e = k))
  | [] => rfl
  | a :: t => by
    unfold sortByKeyDesc
    rw [filter_insertByKey, filter_sortByKeyDesc key k t, List.filter_cons]
    by_cases hk : key a = k <;> simp [hk]

/-- Stability of the sort, pairwise form: two equal-key elements occur in
the sorted output in their original relative order. -/
theorem sortByKeyDesc_tie_sublist {α : Type} (key : α → ℚ) (l : List α)
    (a b : α) (hab : List.Sublist [a, b] (sortByKeyDesc key l)) (heq : key a = key b) :
    List.Sublist [a, b] l := by
  have hfa : (fun e => decide (key e = key b)) a = true := by simp [heq]
  have hfb : (fun e => decide (key e = key b)) b = true := by simp
  have h1 : List.Sublist [a, b]
      ((sortByKeyDesc key l).filter (fun e => decide (key e = key b))) := by
    have := hab.filter (fun e => decide (key e = key b))
    simpa [List.filter_cons, hfa, hfb] using this
  rw [filter_sortByKeyDesc] at h1
  exact h1.trans (List.filter_sublist l)

/-- A successful projection has one value per requested column. -/
theorem projectRow_length (validated : FeatureVector) :
    ∀ (cs : List String) (row : List ℚ), projectRow validated cs = .ok row →
      row.length = cs.length
  | [], row, h => by
    obtain rfl : ([] : List ℚ) = row := by simpa [projectRow] using h
    rfl
  | c :: cs, row, h => by
    unfold projectRow at h
    cases hl : validated.lookup c with
    | none => rw [hl] at h; cases h
    | some v =>
      rw [hl] at h
      cases hrec : projectRow validated cs with
      | error e => rw [hrec] at h; cases h
      | ok rest =>
        rw [hrec] at h
        obtain rfl : v :: rest = row := by simpa using h
        simp [projectRow_length validated cs rest hrec]

/-- The `i`-th value of a successful projection is the dict value of the
`i`-th column. -/
theorem projectRow_lookup (validated : FeatureVector) :
    ∀ (cs : List String) (row : List ℚ), projectRow validated cs = .ok row →
      ∀ (i : ℕ) (c : String) (v : ℚ), cs[i]? = some c → row[i]? = some v →
        validated.lookup c = some v
  | [], row, h, i, c, v, hc, _ => by simp at hc
  | c' :: cs, row, h, i, c, v, hc, hv => by
    unfold projectRow at h
    cases hl : validated.lookup c' with
    | none => rw [hl] at h; cases h
    | some v' =>
      rw [hl] at h
      cases hrec : projectRow validated cs with
      | error e => rw [hrec] at h; cases h
      | ok rest =>
        rw [hrec] at h
        obtain rfl : v' :: rest = row := by simpa using h
        cases i with
        | zero =>
          obtain rfl : c' = c := by simpa using hc
          obtain rfl : v' = v := by simpa using hv
          exact hl
        | succ j =>
          exact projectRow_lookup validated cs rest hrec j c v
            (by simpa using hc) (by simpa using hv)

/-- Each element of a three-way zip comes from a common index of the
three lists. -/
theorem mem_zip3 (e : TopFeature) :
    ∀ (as : List String) (bs cs : List ℚ), e ∈ zip3 as bs cs →
      ∃ i : ℕ, as[i]? = some e.1 ∧ bs[i]? = some e.2.1 ∧ cs[i]? = some e.2.2
  | [], bs, cs, h => by simp [zip3] at h
  | a :: as, [], cs, h => by simp [zip3] at h
  | a :: as, b :: bs, [], h => by simp [zip3] at h
  | a :: as, b :: bs, c :: cs, h => by
    have hz : zip3 (a :: as) (b :: bs) (c :: cs) =
        (a, b, c) :: zip3 as bs cs := rfl
    rw [hz, List.mem_cons] at h
    rcases h with rfl | h'
    · exact ⟨0, by simp, by simp, by simp⟩
    · obtain ⟨i, h1, h2, h3⟩ := mem_zip3 e as bs cs h'
      exact ⟨i + 1, by simpa using h1, by simpa using h2, by simpa using h3⟩

/-- Projecting the names out of the zip recovers the column list. -/
theorem map_fst_zip3 (as : List String) (bs cs : List ℚ)
    (hb : as.length ≤ bs.length) (hc : as.length ≤ cs.length) :
    (zip3 as bs cs).map Prod.fst = as := by
  unfold zip3
  apply List.map_fst_zip
  rw [List.length_zip]
  exact le_min hb hc

/-- Concrete evaluation of the classifier adapter on `gTen`/`fTen`. -/
theorem predict_gTen_fTen : predict_parkinsons gTen fTen = .ok rTen := by
  have h06 : ¬ ((7 : ℚ)/10 < 0.6) := by norm_num
  have h10 : ¬ ((1 : ℚ) ≤ 0) := by norm_num
  simp [predict_parkinsons, gTen, mTen, sId, fTen, feature_columns,
    validate_features, projectRow, List.lookup, zip3, sortByKeyDesc,
    insertByKey, rTen, h06, h10]

/-! ### Claim theorems -/

/-- Claim C6: a zero-length audio input fails with `EmptyAudioError`
before any feature computation — the failure is independent of the DSP
collaborators, of the loaded model state, and of the sample rate, and no
`PredictionResult` is produced. -/
theorem empty_audio_rejected (g : AppGlobals) (d : Dsp) (y : List ℚ) (sr : ℕ)
    (h : y.length = 0) :
    analyzePipeline g d y sr = .error .emptyAudio := by
  unfold analyzePipeline extract_features
  rw [if_pos h]

/-- Witness for C6 at the concrete empty input. -/
theorem empty_audio_rejected_witness :
    ([] : List ℚ).length = 0 ∧
      analyzePipeline gUnloaded dspTriv [] 22050 = .error .emptyAudio :=
  ⟨rfl, empty_audio_rejected gUnloaded dspTriv [] 22050 rfl⟩

/-- Claim C7: when no model or no scaler is loaded, `predict_parkinsons`
fails with `ModelUnavailableError`, uniformly in the submitted features
(so no validation, scaling or prediction work can depend on the request).
The embedding is stateless, matching the source: the failing branch only
reads the module-level globals. -/
theorem model_unavailable_before_work (g : AppGlobals)
    (h : g.model = none ∨ g.scaler = none) (features : FeatureVector) :
    predict_parkinsons g features = .error .modelUnavailable := by
  rcases g with ⟨m, s, cols, stats⟩
  rcases m with _ | m <;> rcases s with _ | s <;>
    simp_all [predict_parkinsons]

/-- Witness for C7 at the unloaded state. -/
theorem model_unavailable_before_work_witness :
    (gUnloaded.model = none ∨ gUnloaded.scaler = none) ∧
      predict_parkinsons gUnloaded fTen = .error .modelUnavailable :=
  ⟨Or.inl rfl, model_unavailable_before_work gUnloaded (Or.inl rfl) fTen⟩

/-- Claim C8: when the statistics table is absent or empty, the validator
returns its input unchanged (same keys, same values) and does not fail. -/
theorem stats_absent_passthrough (features : FeatureVector) :
    validate_features features none = .ok features := rfl

/-- Claim C9: the pipeline is deterministic — two runs on the identical
decoded audio and identical loaded artifact produce identical feature
vectors and prediction records.  The embedding of the analysis path is a
pure function (the source path performs no randomised or time-dependent
calls), so equal inputs give equal outputs. -/
theorem pipeline_deterministic (g : AppGlobals) (d : Dsp) (y₁ y₂ : List ℚ)
    (sr₁ sr₂ : ℕ) (hy : y₁ = y₂) (hsr : sr₁ = sr₂) :
    analyzePipeline g d y₁ sr₁ = analyzePipeline g d y₂ sr₂ := by
  rw [hy, hsr]

/-- Witness for C9 at a concrete repeated input. -/
theorem pipeline_deterministic_witness :
    ySilence = ySilence ∧
      analyzePipeline gTen dspSilence ySilence 4 =
        analyzePipeline gTen dspSilence ySilence 4 :=
  ⟨rfl, pipeline_deterministic gTen dspSilence ySilence ySilence 4 4 rfl rfl⟩

/-- Claim C5: on every non-empty input the extractor returns a feature
vector with exactly the ten defined keys, in the defined order.  Every
value is a rational number of the embedding, hence finite: the extractor
total-functionally produces one value per key. -/
theorem extractor_returns_ten_keys (d : Dsp) (y : List ℚ) (sr : ℕ)
    (h : y.length ≠ 0) :
    ∃ fv, extract_features d y sr = .ok fv ∧ fv.map Prod.fst = feature_columns := by
  unfold extract_features
  rw [if_neg h]
  exact ⟨_, rfl, rfl⟩

/-- Witness for C5 at a concrete one-sample input. -/
theorem extractor_returns_ten_keys_witness :
    ([(1 : ℚ)].length ≠ 0) ∧
      ∃ fv, extract_features dspTriv [1] 1 = .ok fv ∧
        fv.map Prod.fst = feature_columns :=
  ⟨by simp, extractor_returns_ten_keys dspTriv [1] 1 (by simp)⟩

/-- Claim C1 (amended): for a feature present in the vector and in both
stats tables, provided the acceptable range `[0.5·min, 1.5·max]` is
non-empty, an out-of-range value is clipped exactly to the nearest bound
of that range, and an in-range value passes through unchanged. -/
theorem validator_clips_to_nearest_bound
    (features : FeatureVector) (st : FeatureStats) (out : FeatureVector)
    (nm : String) (v mn mx : ℚ)
    (hv : features.lookup nm = some v)
    (hmn : st.mins.lookup nm = some mn) (hmx : st.maxs.lookup nm = some mx)
    (hrange : mn * 0.5 ≤ mx * 1.5)
    (hok : validate_features features (some st) = .ok out) :
    ((v < mn * 0.5 ∨ v > mx * 1.5) →
        out.lookup nm = some (nearestBound v (mn * 0.5) (mx * 1.5))) ∧
    (mn * 0.5 ≤ v → v ≤ mx * 1.5 → out.lookup nm = some v) := by
  have hl := validateLoop_ok_lookup st.mins st.maxs features out hok nm v hv
  rcases hl with ⟨hnone, _⟩ | ⟨mn', mx', hmn', hmx', hout⟩
  · rw [hmn] at hnone; cases hnone
  · rw [hmn] at hmn'; rw [hmx] at hmx'
    injection hmn' with hmn2
    injection hmx' with hmx2
    rw [← hmn2, ← hmx2] at hout
    constructor
    · intro hflag
      rw [hout]
      congr 1
      unfold validate_one npClip nearestBound
      rw [if_pos hflag]
      rcases hflag with hlo | hhi
      · have h1 : max v (mn * 0.5) = mn * 0.5 := max_eq_right hlo.le
        have h2 : |v - mn * 0.5| ≤ |v - mx * 1.5| := by
          rw [abs_of_nonpos (by linarith), abs_of_nonpos (by linarith)]
          linarith
        rw [h1, min_eq_left hrange, if_pos h2]
      · have h1 : max v (mn * 0.5) = v := max_eq_left (by linarith)
        rw [h1, min_eq_right (by linarith)]
        by_cases h2 : |v - mn * 0.5| ≤ |v - mx * 1.5|
        · rw [if_pos h2]
          rw [abs_of_nonneg (by linarith), abs_of_nonneg (by linarith)] at h2
          linarith
        · rw [if_neg h2]
    · intro h1 h2
      rw [hout]
      congr 1
      unfold validate_one
      rw [if_neg]
      push_neg
      exact ⟨h1, h2⟩

/-- Witness for C1 at a concrete out-of-range value: `jitter = 1/2`
against range `[1, 6]` is clipped to the nearest bound `1`. -/
theorem validator_clips_to_nearest_bound_witness :
    ([("jitter", (1 : ℚ))] : FeatureVector).lookup "jitter" =
      some (nearestBound (1/2) (2 * 0.5) (4 * 1.5)) :=
  (validator_clips_to_nearest_bound [("jitter", 1/2)] stProper [("jitter", 1)]
    "jitter" (1/2) 2 4 (by simp [List.lookup])
    (by simp [stProper, List.lookup]) (by simp [stProper, List.lookup])
    (by norm_num)
    (by simp [validate_features, validateLoop, stProper, List.lookup,
          validate_one, npClip]
        norm_num)).1
  (by norm_num)

/-- Counterexample to C1 as stated: with training `jitter` stats
`min = 10`, `max = 1` the range arguments are `lo = 5`, `hi = 1.5`; the
observed value `4.9` is flagged (more than 50% below the training min),
the nearest bound is `5`, but the validator outputs `1.5`. -/
theorem validator_nearest_bound_cex :
    validate_features [("jitter", 49/10)] (some stInverted) =
        .ok [("jitter", 3/2)] ∧
      ((49/10 : ℚ) < 10 * 0.5) ∧
      nearestBound (49/10) (10 * 0.5) (1 * 1.5) = 5 ∧
      (3/2 : ℚ) ≠ 5 := by
  have h1 : |(49 : ℚ)/10 - 10 * 0.5| = 1/10 := by
    rw [abs_of_nonpos (by norm_num)]; norm_num
  have h2 : |(49 : ℚ)/10 - 1 * 1.5| = 17/5 := by
    rw [abs_of_nonneg (by norm_num)]; norm_num
  refine ⟨?_, by norm_num, ?_, by norm_num⟩
  · simp [validate_features, validateLoop, stInverted, List.lookup,
      validate_one, npClip]
    norm_num
  · unfold nearestBound
    rw [h1, h2, if_pos (by norm_num)]
    norm_num

/-- Claim C10 (amended): when the computed validation bounds are inverted
(`0.5·min > 1.5·max`, equivalently `min > 3·max`, which under
`min ≤ max` forces both bounds negative), every flagged value is set to
the upper argument `1.5·max`, which lies below the lower argument
`0.5·min` — so it is not the nearest bound of any non-empty range. -/
theorem inverted_range_clips_to_upper
    (features : FeatureVector) (st : FeatureStats) (out : FeatureVector)
    (nm : String) (v mn mx : ℚ)
    (hv : features.lookup nm = some v)
    (hmn : st.mins.lookup nm = some mn) (hmx : st.maxs.lookup nm = some mx)
    (hinv : mx * 1.5 < mn * 0.5)
    (hflag : v < mn * 0.5 ∨ v > mx * 1.5)
    (hok : validate_features features (some st) = .ok out) :
    out.lookup nm = some (mx * 1.5) ∧ mx * 1.5 < mn * 0.5 ∧
      (mn ≤ mx → mx < 0 ∧ 3 * mx < mn) := by
  have hl := validateLoop_ok_lookup st.mins st.maxs features out hok nm v hv
  rcases hl with ⟨hnone, _⟩ | ⟨mn', mx', hmn', hmx', hout⟩
  · rw [hmn] at hnone; cases hnone
  · rw [hmn] at hmn'; rw [hmx] at hmx'
    injection hmn' with hmn2
    injection hmx' with hmx2
    rw [← hmn2, ← hmx2] at hout
    refine ⟨?_, hinv, fun hle => ⟨by linarith, by linarith⟩⟩
    rw [hout]
    congr 1
    unfold validate_one npClip
    rw [if_pos hflag]
    have h1 : mx * 1.5 ≤ max v (mn * 0.5) :=
      le_trans hinv.le (le_max_right _ _)
    exact min_eq_right h1

/-- Witness for C10 at the collapsed `hnr` stats (`min = max = -1`,
inverted bounds `[-0.5, -1.5]`): the flagged value `7` is set to `-1.5`. -/
theorem inverted_range_clips_to_upper_witness :
    ([("hnr", (-3/2 : ℚ))] : FeatureVector).lookup "hnr" =
        some ((-1) * 1.5) ∧
      ((-1 : ℚ) * 1.5 < (-1) * 0.5) ∧
      ((-1 : ℚ) ≤ -1 → (-1 : ℚ) < 0 ∧ 3 * (-1 : ℚ) < -1) :=
  inverted_range_clips_to_upper [("hnr", 7)] stCollapsed [("hnr", -3/2)]
    "hnr" 7 (-1) (-1) (by simp [List.lookup])
    (by simp [stCollapsed, List.lookup]) (by simp [stCollapsed, List.lookup])
    (by norm_num) (Or.inr (by norm_num))
    (by simp [validate_features, validateLoop, stCollapsed, List.lookup,
          validate_one, npClip]
        norm_num)

/-- Counterexample to C10 as stated: both `mfcc_mean` training bounds are
negative (`min = -4`, `max = -1`), yet the computed bounds `[-2, -1.5]`
are NOT inverted, and the flagged value `-10` is clipped to the lower
argument `-2`, not to the upper argument `1.5·max = -1.5`. -/
theorem inverted_range_cex :
    ((-4 : ℚ) < 0 ∧ (-1 : ℚ) < 0) ∧
      ((-10 : ℚ) < -4 * 0.5) ∧
      ¬ ((-1 : ℚ) * 1.5 < (-4) * 0.5) ∧
      validate_features [("mfcc_mean", -10)] (some stNegative) =
        .ok [("mfcc_mean", -2)] ∧
      (-2 : ℚ) ≠ (-1) * 1.5 := by
  refine ⟨⟨by norm_num, by norm_num⟩, by norm_num, by norm_num, ?_, by norm_num⟩
  simp [validate_features, validateLoop, stNegative, List.lookup,
    validate_one, npClip]
  norm_num

/-- Claim C3 (amended): on an all-zero input of non-zero length the
pipeline does not fail, and — under the librosa silence contract
(normalising, trimming, pitch-tracking and RMS of a silent signal yield
only zeros) — the pitch statistics and jitter equal their documented
defaults (`pitch_mean 150`, `pitch_std 40`, `jitter 0.005`), while
shimmer is `0` when at least two RMS frames exist and `0.02` otherwise. -/
theorem silence_uses_defaults (d : Dsp) (y : List ℚ) (sr : ℕ)
    (hlen : y.length ≠ 0) (hzero : ∀ x ∈ y, x = 0)
    (hnorm : ∀ z, (∀ x ∈ z, x = 0) → ∀ x ∈ d.normalize z, x = 0)
    (htrim : ∀ z, (∀ x ∈ z, x = 0) → ∀ x ∈ d.trim z, x = 0)
    (hpip : ∀ z s hp, (∀ x ∈ z, x = 0) →
      ∀ c ∈ d.piptrack z s hp, ∀ p ∈ c.1, p = 0)
    (hrms : ∀ z fl hp, (∀ x ∈ z, x = 0) → ∀ r ∈ d.rms z fl hp, r = 0) :
    ∃ fv, extract_features d y sr = .ok fv ∧
      fv.lookup "pitch_mean" = some 150 ∧
      fv.lookup "pitch_std" = some 40 ∧
      fv.lookup "jitter" = some 0.005 ∧
      fv.lookup "shimmer" = some
        (if 1 < (d.rms
            (if ((d.trim (d.normalize y)).length : ℚ) < (sr : ℚ) * 0.5
              then d.normalize y else d.trim (d.normalize y))
            (min 2048 (if ((d.trim (d.normalize y)).length : ℚ) < (sr : ℚ) * 0.5
              then d.normalize y else d.trim (d.normalize y)).length)
            (min 2048 (if ((d.trim (d.normalize y)).length : ℚ) < (sr : ℚ) * 0.5
              then d.normalize y else d.trim (d.normalize y)).length / 4)).length
          then 0 else 0.02) := by
  have hyn : ∀ x ∈ d.normalize y, x = 0 := hnorm y hzero
  have hytz : ∀ x ∈ (if ((d.trim (d.normalize y)).length : ℚ) < (sr : ℚ) * 0.5
      then d.normalize y else d.trim (d.normalize y)), x = 0 := by
    split
    · exact hyn
    · exact htrim _ hyn
  unfold extract_features
  rw [if_neg hlen]
  simp only []
  generalize hYT : (if ((d.trim (d.normalize y)).length : ℚ) < (sr : ℚ) * 0.5
      then d.normalize y else d.trim (d.normalize y)) = yt at hytz ⊢
  have hsel : selectPitches (d.piptrack yt sr (min 2048 yt.length / 4)) = [] :=
    selectPitches_eq_nil _ (hpip yt sr (min 2048 yt.length / 4) hytz)
  rw [hsel]
  have hrmsz : ∀ r ∈ d.rms yt (min 2048 yt.length) (min 2048 yt.length / 4),
      r = 0 := hrms yt (min 2048 yt.length) (min 2048 yt.length / 4) hytz
  generalize hR : d.rms yt (min 2048 yt.length) (min 2048 yt.length / 4) = R
    at hrmsz ⊢
  refine ⟨_, rfl, ?_, ?_, ?_, ?_⟩
  · simp [List.lookup]
  · simp [List.lookup]
  · simp [List.lookup]
  · by_cases hR1 : 1 < R.length
    · simp [List.lookup, hR1, mean_of_all_zero (absDiffs R) (absDiffs_all_zero R hrmsz)]
    · simp [List.lookup, hR1]

/-- Witness for C3 at the concrete silent input `ySilence` with the
librosa-consistent `dspSilence`. -/
theorem silence_uses_defaults_witness :
    ∃ fv, extract_features dspSilence ySilence 4 = .ok fv ∧
      fv.lookup "pitch_mean" = some 150 ∧
      fv.lookup "pitch_std" = some 40 ∧
      fv.lookup "jitter" = some 0.005 ∧
      fv.lookup "shimmer" = some
        (if 1 < (dspSilence.rms
            (if ((dspSilence.trim (dspSilence.normalize ySilence)).length : ℚ) <
                ((4 : ℕ) : ℚ) * 0.5
              then dspSilence.normalize ySilence
              else dspSilence.trim (dspSilence.normalize ySilence))
            (min 2048
              (if ((dspSilence.trim (dspSilence.normalize ySilence)).length : ℚ) <
                  ((4 : ℕ) : ℚ) * 0.5
                then dspSilence.normalize ySilence
                else dspSilence.trim (dspSilence.normalize ySilence)).length)
            (min 2048
              (if ((dspSilence.trim (dspSilence.normalize ySilence)).length : ℚ) <
                  ((4 : ℕ) : ℚ) * 0.5
                then dspSilence.normalize ySilence
                else dspSilence.trim (dspSilence.normalize ySilence)).length /
              4)).length
          then 0 else 0.02) :=
  silence_uses_defaults dspSilence ySilence 4
    (by simp [ySilence])
    (by intro x hx; simpa [ySilence] using (List.eq_of_mem_replicate hx))
    (fun z h x hx => h x hx)
    (by intro z h x hx; simp [dspSilence] at hx)
    (by
      intro z s hp h c hc p hp'
      have hc' : c = ([0], [0]) := by simpa [dspSilence] using hc
      rw [hc'] at hp'
      simpa using hp')
    (by
      intro z fl hp h r hr
      have hr' : r = 0 := by simpa [dspSilence] using hr
      exact hr')

/-- Counterexample to C3 as stated: on the silent input `ySilence` the
extractor returns shimmer `0`, not the documented default `0.02` — the
`0.02` fallback only applies when fewer than two RMS frames exist,
whereas a silent signal yields many all-zero RMS frames and the shimmer
formula evaluates to `0 / (0 + 1e-10) = 0`. -/
theorem silence_shimmer_cex :
    (∀ x ∈ ySilence, x = 0) ∧ ySilence.length ≠ 0 ∧
      (extract_features dspSilence ySilence 4).map
        (fun fv => fv.lookup "shimmer") = .ok (some 0) ∧
      (0 : ℚ) ≠ 0.02 := by
  refine ⟨?_, by simp [ySilence], ?_, by norm_num⟩
  · intro x hx
    exact List.eq_of_mem_replicate hx
  · simp [extract_features, dspSilence, ySilence, selectPitches, argmaxIdx,
      mean, absDiffs, eps, npStd, List.lookup, Except.map]

/-- Claim C2: in every produced `PredictionResult`, `needs_review` holds
iff confidence is below `0.6`; confidence is the probability of the
predicted class (`probability[prediction]`, not the maximum of the two);
and — under the scikit-learn contract that `predict_proba` returns a
probability distribution — confidence lies in `[0,1]` and the two class
probabilities sum to exactly `1` (the rational embedding realises the
"≈ 1.0 within floating tolerance" cross-check exactly). -/
theorem confidence_and_needs_review
    (g : AppGlobals) (features : FeatureVector) (model : Model)
    (scaler : Scaler) (r : PredictionResult)
    (hm : g.model = some model) (hs : g.scaler = some scaler)
    (hp : ∀ x, 0 ≤ (model.predict_proba x).1 ∧ 0 ≤ (model.predict_proba x).2 ∧
      (model.predict_proba x).1 + (model.predict_proba x).2 = 1)
    (hr : predict_parkinsons g features = .ok r) :
    (r.needs_review = true ↔ r.confidence < 0.6) ∧
    r.confidence = (if r.prediction = 0 then r.probability_healthy
      else r.probability_parkinsons) ∧
    0 ≤ r.confidence ∧ r.confidence ≤ 1 ∧
    r.probability_healthy + r.probability_parkinsons = 1 := by
  unfold predict_parkinsons at hr
  rw [hm, hs] at hr
  cases hv : validate_features features g.feature_stats with
  | error e => rw [hv] at hr; cases hr
  | ok validated =>
    rw [hv] at hr
    simp only [] at hr
    cases hpr : projectRow validated g.feature_columns with
    | error e => rw [hpr] at hr; cases hr
    | ok row =>
      rw [hpr] at hr
      simp only [] at hr
      rw [Except.ok.injEq] at hr
      subst hr
      obtain ⟨h1, h2, h3⟩ := hp (scaler.transform row)
      refine ⟨by simp, ?_, ?_, ?_, h3⟩
      · by_cases h0 : model.predict (scaler.transform row) = 0
        · simp [h0]
        · have hval : (model.predict (scaler.transform row)).val ≠ 0 := by
            intro hvv
            exact h0 (Fin.ext (by simpa using hvv))
          simp only []
          rw [if_neg h0, if_neg hval]
      · simp only []
        split
        · exact h1
        · exact h2
      · simp only []
        split
        · linarith
        · linarith

/-- Witness for C2 at the concrete loaded state `gTen` and input `fTen`. -/
theorem confidence_and_needs_review_witness :
    (rTen.needs_review = true ↔ rTen.confidence < 0.6) ∧
      rTen.confidence = (if rTen.prediction = 0 then rTen.probability_healthy
        else rTen.probability_parkinsons) ∧
      0 ≤ rTen.confidence ∧ rTen.confidence ≤ 1 ∧
      rTen.probability_healthy + rTen.probability_parkinsons = 1 :=
  confidence_and_needs_review gTen fTen mTen sId rTen rfl rfl
    (fun x => ⟨by norm_num [mTen], by norm_num [mTen], by norm_num [mTen]⟩)
    predict_gTen_fTen

/-- Claim C4: with the model artifact loaded (ten feature columns, one
importance weight per column), every produced `top_features` list has
exactly 5 entries, is sorted by importance descending with ties kept in
the original feature-column order, and each entry pairs a feature column
with its model importance weight (same column index) and this sample's
validated observed value (the validated dict's value for that name). -/
theorem top_features_ranking
    (g : AppGlobals) (features : FeatureVector) (model : Model)
    (scaler : Scaler) (validated : FeatureVector) (r : PredictionResult)
    (hm : g.model = some model) (hs : g.scaler = some scaler)
    (hcols : g.feature_columns = feature_columns)
    (hlen : model.feature_importances.length = feature_columns.length)
    (hv : validate_features features g.feature_stats = .ok validated)
    (hr : predict_parkinsons g features = .ok r) :
    r.top_features.length = 5 ∧
    r.top_features.Pairwise (fun a b => b.2.1 ≤ a.2.1 ∧
      (a.2.1 = b.2.1 → List.Sublist [a.1, b.1] feature_columns)) ∧
    ∀ e ∈ r.top_features, validated.lookup e.1 = some e.2.2 ∧
      ∃ i : ℕ, feature_columns[i]? = some e.1 ∧
        model.feature_importances[i]? = some e.2.1 := by
  unfold predict_parkinsons at hr
  rw [hm, hs, hv] at hr
  simp only [] at hr
  cases hpr : projectRow validated g.feature_columns with
  | error e => rw [hpr] at hr; cases hr
  | ok row =>
    rw [hpr] at hr
    simp only [] at hr
    rw [Except.ok.injEq] at hr
    subst hr
    rw [hcols] at hpr
    have hrow : row.length = feature_columns.length :=
      projectRow_length validated feature_columns row hpr
    simp only [hcols]
    set z := zip3 feature_columns model.feature_importances row with hz
    have hmapz : z.map Prod.fst = feature_columns :=
      map_fst_zip3 _ _ _ (by rw [hlen]) (by rw [hrow])
    have hzlen : z.length = 10 := by
      rw [hz]
      unfold zip3
      rw [List.length_zip, List.length_zip, hlen, hrow]
      simp [feature_columns]
    refine ⟨?_, ?_, ?_⟩
    · simp [List.length_take, length_sortByKeyDesc, hzlen]
    · have hsorted := pairwise_sortByKeyDesc (fun e => e.2.1) z
      have hfull : (sortByKeyDesc (fun e => e.2.1) z).Pairwise
          (fun a b => b.2.1 ≤ a.2.1 ∧
            (a.2.1 = b.2.1 → List.Sublist [a.1, b.1] feature_columns)) := by
        rw [List.pairwise_iff_forall_sublist]
        intro a b hab
        refine ⟨List.pairwise_iff_forall_sublist.mp hsorted hab, fun heq => ?_⟩
        have hzs : List.Sublist [a, b] z :=
          sortByKeyDesc_tie_sublist (fun e => e.2.1) z a b hab heq
        have hmap := hzs.map Prod.fst
        rw [hmapz] at hmap
        simpa using hmap
      exact List.Pairwise.sublist (List.take_sublist 5 _) hfull
    · intro e he
      have hez : e ∈ z :=
        (mem_sortByKeyDesc (fun e => e.2.1) e z).mp (List.take_subset 5 _ he)
      obtain ⟨i, h1, h2, h3⟩ :=
        mem_zip3 e feature_columns model.feature_importances row hez
      exact ⟨projectRow_lookup validated feature_columns row hpr i e.1 e.2.2
        h1 h3, ⟨i, h1, h2⟩⟩

/-- Witness for C4 at the concrete loaded state `gTen` and input `fTen`
(the importance vector `[0,1,0,1,0,1,0,1,0,1]` has genuine ties to
break). -/
theorem top_features_ranking_witness :
    rTen.top_features.length = 5 ∧
      rTen.top_features.Pairwise (fun a b => b.2.1 ≤ a.2.1 ∧
        (a.2.1 = b.2.1 → List.Sublist [a.1, b.1] feature_columns)) ∧
      ∀ e ∈ rTen.top_features, fTen.lookup e.1 = some e.2.2 ∧
        ∃ i : ℕ, feature_columns[i]? = some e.1 ∧
          mTen.feature_importances[i]? = some e.2.1 :=
  top_features_ranking gTen fTen mTen sId fTen rTen rfl rfl rfl rfl rfl
    predict_gTen_fTen

end NeuroVoice
